import Mathlib

/-!
# Verification of the drivechain-explorer caching proxy core

Shallow embedding of `app.py` (Flask caching proxy with a BIP300/301
coinbase-message decoder, a cache-aside layer over Redis, and a background
price-refresh worker).  Machine floats of the source are modelled as exact
rationals; the external key-value store is modelled as an explicit state
threaded through each handler; upstream HTTP calls are modelled as an
oracle parameter enumerating the outcome classes the source distinguishes
(`requests.exceptions.Timeout`, `ConnectionError`, `HTTPError`, other
request failures, success).
-/

namespace DrivechainExplorer

/-! ## Python scalar values and `calculate_megahash` (app.py lines 12-37) -/

/-- A Python value as it can reach `calculate_megahash` as the `difficulty`
argument.  `vnum` covers `int`, `float` and `bool` (Python `bool` is an
`int` subtype: `True` behaves as `1`, `False` as `0`); `vother` covers
values such as lists or dicts whose arithmetic raises `TypeError`. -/
inductive PyVal where
  | vnone : PyVal
  | vnum : ℚ → PyVal
  | vstr : String → PyVal
  | vother : PyVal
deriving DecidableEq, Repr

/-- Round-half-to-even of a rational to an integer, the rounding used by
Python's `round` builtin. -/
def roundHalfEven (q : ℚ) : ℤ :=
  let f := ⌊q⌋
  let r := q - (f : ℚ)
  if r < 1/2 then f
  else if 1/2 < r then f + 1
  else if f % 2 = 0 then f else f + 1

/-- Python `round(x, 2)`: round to two decimal digits, half to even. -/
def round2 (q : ℚ) : ℚ := (roundHalfEven (q * 100) : ℚ) / 100

/-- One decimal digit. -/
def digitVal (c : Char) : Option Nat :=
  if '0' ≤ c ∧ c ≤ '9' then some (c.toNat - 48) else none

/-- Take a maximal run of decimal digits off the front of a char list. -/
def takeDigits : List Char → (List Nat × List Char)
  | [] => ([], [])
  | c :: cs =>
    match digitVal c with
    | some d => let p := takeDigits cs; (d :: p.1, p.2)
    | none => ([], c :: cs)

/-- Value of a big-endian decimal digit list. -/
def natOfDigits (ds : List Nat) : Nat := ds.foldl (fun a d => a * 10 + d) 0

/-- Parse an unsigned decimal literal `digits [. digits]` (at least one
digit overall), returning mantissa digits as a natural number, the count
of fraction digits, and the rest of the input. -/
def parseUnsignedDec (cs : List Char) : Option (Nat × Nat × List Char) :=
  let ip := takeDigits cs
  match ip.2 with
  | '.' :: r2 =>
    let fp := takeDigits r2
    if ip.1.isEmpty ∧ fp.1.isEmpty then none
    else some (natOfDigits (ip.1 ++ fp.1), fp.1.length, fp.2)
  | r1 => if ip.1.isEmpty then none else some (natOfDigits ip.1, 0, r1)

/-- Parse an optional exponent suffix `([eE][+-]?digits)?`; `none` means a
malformed exponent, `some (e, rest)` a (possibly absent, then `e = 0`)
well-formed one. -/
def parseExpSuffix (cs : List Char) : Option (ℤ × List Char) :=
  match cs with
  | 'e' :: r | 'E' :: r =>
    let signed : ℤ × List Char :=
      match r with
      | '+' :: r2 => (1, r2)
      | '-' :: r2 => (-1, r2)
      | _ => (1, r)
    let ds := takeDigits signed.2
    if ds.1.isEmpty then none else some (signed.1 * (natOfDigits ds.1 : ℤ), ds.2)
  | _ => some (0, cs)

/-- ASCII / Latin-1 / common Unicode code points with the Python
`str.isspace` property (Unicode whitespace plus the bidirectional
separator controls).  Code points outside the ranges listed here do not
occur in the inputs this development reasons about. -/
def isPySpaceCode (n : Nat) : Bool :=
  (9 ≤ n ∧ n ≤ 13) ∨ (28 ≤ n ∧ n ≤ 31) ∨ n = 32 ∨ n = 0x85 ∨ n = 0xA0 ∨
    n = 0x1680 ∨ (0x2000 ≤ n ∧ n ≤ 0x200A) ∨ n = 0x2028 ∨ n = 0x2029 ∨
    n = 0x202F ∨ n = 0x205F ∨ n = 0x3000

/-- `str.isspace` per character. -/
def isPySpace (c : Char) : Bool := isPySpaceCode c.toNat

/-- Python `str.strip()` on a char list: drop leading and trailing
whitespace. -/
def stripChars (cs : List Char) : List Char :=
  ((cs.dropWhile isPySpace).reverse.dropWhile isPySpace).reverse

/-- Python `str.strip()`. -/
def pyStrip (s : String) : String := ⟨stripChars s.data⟩

/-- Python `float(s)` for finite decimal literals: optional surrounding
whitespace, optional sign, mantissa, optional exponent.  The result is the
exact decimal value returned as a mantissa/power-of-ten pair `(m, e)`
denoting `m * 10 ^ e` (interpreted by `decLit`); `none` models the
`ValueError` raise.  (`inf`/`nan` spellings and digit-group underscores
are not modelled; no input in this development uses them.) -/
def pyFloat (s : String) : Option (ℤ × ℤ) :=
  let cs := stripChars s.data
  let signed : ℤ × List Char :=
    match cs with
    | '+' :: r => (1, r)
    | '-' :: r => (-1, r)
    | _ => (1, cs)
  match parseUnsignedDec signed.2 with
  | none => none
  | some (m, fracDigits, r1) =>
    match parseExpSuffix r1 with
    | none => none
    | some (e, r2) =>
      if r2.isEmpty then some (signed.1 * (m : ℤ), e - (fracDigits : ℤ)) else none

/-- The rational value of a parsed decimal literal. -/
def decLit (p : ℤ × ℤ) : ℚ := (p.1 : ℚ) * 10 ^ p.2

/-- `calculate_megahash` (app.py lines 12-37): `difficulty * 2**32 /
(600 * 10**6)` rounded to two decimals; `None`, `0` and any value whose
arithmetic or conversion raises `ValueError`/`TypeError` yield `0`.
Note the `difficulty == 0` early return happens before the string
conversion, so a string input always reaches the formula. -/
def calculate_megahash (difficulty : PyVal) : ℚ :=
  match difficulty with
  | .vnone => 0
  | .vnum q => if q = 0 then 0 else round2 (q * 2 ^ 32 / (600 * 10 ^ 6))
  | .vstr s =>
    match pyFloat s with
    | some p => round2 (decLit p * 2 ^ 32 / (600 * 10 ^ 6))
    | none => 0
  | .vother => 0

/-! ## Hex encoding and decoding (`bytes.fromhex`, `bytes.hex`) -/

/-- ASCII whitespace, which `bytes.fromhex` skips. -/
def isAsciiWs (c : Char) : Bool :=
  c.toNat = 9 ∨ c.toNat = 10 ∨ c.toNat = 11 ∨ c.toNat = 12 ∨ c.toNat = 13 ∨ c.toNat = 32

/-- One hexadecimal digit (both cases). -/
def hexDigitVal (c : Char) : Option Nat :=
  if '0' ≤ c ∧ c ≤ '9' then some (c.toNat - 48)
  else if 'a' ≤ c ∧ c ≤ 'f' then some (c.toNat - 87)
  else if 'A' ≤ c ∧ c ≤ 'F' then some (c.toNat - 55)
  else none

/-- Pair up hex digits into byte values; `none` on an odd count or a
non-hex character. -/
def hexPairs : List Char → Option (List Nat)
  | [] => some []
  | [_] => none
  | c1 :: c2 :: rest =>
    match hexDigitVal c1, hexDigitVal c2, hexPairs rest with
    | some h, some l, some bs => some ((h * 16 + l) :: bs)
    | _, _, _ => none

/-- `bytes.fromhex(s)`: skip ASCII whitespace, then decode pairs of hex
digits; `none` models the `ValueError` raise. -/
def pyFromHex (s : String) : Option (List Nat) :=
  hexPairs (s.data.filter (fun c => !isAsciiWs c))

/-- One lowercase hex digit character (used to build test inputs the way
the upstream API's `.hex()` serialization would). -/
def hexDigitChar (n : Nat) : Char :=
  if n < 10 then Char.ofNat (48 + n) else Char.ofNat (87 + n)

/-- Lowercase hex encoding of a byte list. -/
def bytesToHex (bs : List Nat) : String :=
  ⟨bs.foldr (fun b acc => hexDigitChar (b / 16 % 16) :: hexDigitChar (b % 16) :: acc) []⟩

/-! ## Python character classification and text cleaning -/

/-- `str.isprintable` per code point.  Exact on ASCII and Latin-1; above
that, Unicode separator/format characters commonly reached from byte
decoding are listed and the remaining code points are treated as
printable (the unassigned/private-use categories are approximated). -/
def isPyPrintableCode (n : Nat) : Bool :=
  if n < 0x20 then false
  else if n < 0x7F then true
  else if n < 0xA0 then false
  else if n = 0xAD then false
  else if isPySpaceCode n then false
  else if 0x200B ≤ n ∧ n ≤ 0x200F then false
  else if 0x202A ≤ n ∧ n ≤ 0x202E then false
  else if 0x2060 ≤ n ∧ n ≤ 0x2064 then false
  else if n = 0xFEFF then false
  else true

/-- The cleaning comprehension of the decoders:
`''.join(char if char.isprintable() or char.isspace() else '' for char in text)`. -/
def cleanCodes (cs : List Nat) : List Nat :=
  cs.filter (fun c => isPyPrintableCode c || isPySpaceCode c)

/-- Build a string from a list of Unicode code points. -/
def stringOfCodes (cs : List Nat) : String :=
  ⟨cs.map (fun n => Char.ofNat n)⟩

/-! ## UTF-8 decoding (`bytes.decode('utf-8', errors='ignore')`)

CPython's UTF-8 decoder with the `ignore` error handler: well-formed
sequences (no overlongs, no surrogates, max U+10FFFF) produce their code
point; at an error the maximal valid subpart is skipped and decoding
resumes; a truncated sequence at the end of input is dropped. -/

/-- A continuation byte `0x80..0xBF`. -/
def isCont (b : Nat) : Bool := 0x80 ≤ b ∧ b ≤ 0xBF

/-- Lower bound of the first continuation byte, per lead byte (excludes
overlong encodings). -/
def cont1Lo (b : Nat) : Nat := if b = 0xE0 then 0xA0 else if b = 0xF0 then 0x90 else 0x80

/-- Upper bound of the first continuation byte, per lead byte (excludes
surrogates and code points above U+10FFFF). -/
def cont1Hi (b : Nat) : Nat := if b = 0xED then 0x9F else if b = 0xF4 then 0x8F else 0xBF

/-- First-continuation validity for 3- and 4-byte leads. -/
def isCont1 (b c : Nat) : Bool := cont1Lo b ≤ c ∧ c ≤ cont1Hi b

/-- One step of the decoder on a nonempty input: decode one well-formed
sequence (`(some c, rest)`), or skip one maximal invalid subpart
(`(none, rest)`); a sequence truncated by the end of input is dropped
whole (`(none, [])`). -/
def u8step : List Nat → Option Nat × List Nat
  | [] => (none, [])
  | b :: rest =>
    if b < 0x80 then (some b, rest)
    else if b < 0xC2 then (none, rest)
    else if b ≤ 0xDF then
      match rest with
      | [] => (none, [])
      | c1 :: r2 =>
        if isCont c1 then (some ((b - 0xC0) * 64 + (c1 - 0x80)), r2)
        else (none, c1 :: r2)
    else if b ≤ 0xEF then
      match rest with
      | [] => (none, [])
      | c1 :: r2 =>
        if isCont1 b c1 then
          match r2 with
          | [] => (none, [])
          | c2 :: r3 =>
            if isCont c2 then (some ((b - 0xE0) * 4096 + (c1 - 0x80) * 64 + (c2 - 0x80)), r3)
            else (none, c2 :: r3)
        else (none, c1 :: r2)
    else if b ≤ 0xF4 then
      match rest with
      | [] => (none, [])
      | c1 :: r2 =>
        if isCont1 b c1 then
          match r2 with
          | [] => (none, [])
          | c2 :: r3 =>
            if isCont c2 then
              match r3 with
              | [] => (none, [])
              | c3 :: r4 =>
                if isCont c3 then
                  (some ((b - 0xF0) * 262144 + (c1 - 0x80) * 4096 + (c2 - 0x80) * 64 + (c3 - 0x80)),
                    r4)
                else (none, c3 :: r4)
            else (none, c2 :: r3)
        else (none, c1 :: r2)
    else (none, rest)

/-- Iterate `u8step`.  Each step consumes at least one byte, so fuel equal
to the input length runs the decoder to completion. -/
def u8run : Nat → List Nat → List Nat
  | 0, _ => []
  | _, [] => []
  | f + 1, b :: rest =>
    match u8step (b :: rest) with
    | (some c, cont) => c :: u8run f cont
    | (none, cont) => u8run f cont

/-- UTF-8 decoding with `errors='ignore'`: code points of the valid
sequences, invalid maximal subparts dropped. -/
def utf8DecodeIgnore (bs : List Nat) : List Nat := u8run bs.length bs

/-- A Unicode scalar value: encodable in UTF-8. -/
def validScalar (c : Nat) : Prop := c < 0x110000 ∧ ¬(0xD800 ≤ c ∧ c ≤ 0xDFFF)

instance (c : Nat) : Decidable (validScalar c) := by unfold validScalar; infer_instance

/-- UTF-8 encoding of one scalar value. -/
def encodeUtf8One (c : Nat) : List Nat :=
  if c < 0x80 then [c]
  else if c < 0x800 then [0xC0 + c / 64, 0x80 + c % 64]
  else if c < 0x10000 then [0xE0 + c / 4096, 0x80 + c / 64 % 64, 0x80 + c % 64]
  else [0xF0 + c / 262144, 0x80 + c / 4096 % 64, 0x80 + c / 64 % 64, 0x80 + c % 64]

/-- UTF-8 encoding of a scalar list. -/
def encodeUtf8 (cs : List Nat) : List Nat :=
  cs.foldr (fun c acc => encodeUtf8One c ++ acc) []

/-- A byte that no well-formed UTF-8 sequence contains at any position: a
stray continuation byte, an overlong lead `0xC0`/`0xC1`, or `0xF5..0xFF`. -/
def isJunkByte (b : Nat) : Prop := (0x80 ≤ b ∧ b ≤ 0xC1) ∨ (0xF5 ≤ b ∧ b ≤ 0xFF)

instance (b : Nat) : Decidable (isJunkByte b) := by unfold isJunkByte; infer_instance

/-! ## The decoders (app.py lines 226-327) -/

/-- The dictionaries the decoders return, as a tagged variant: the
`"type"` field selects the constructor, the remaining fields are the
payload.  Messages built from a Python exception's text are modelled by
their fixed leading text. -/
inductive DecodedMsg where
  | noneMsg (message : String)
  | m1Incomplete (message : String)
  | m1Propose (sidechain_number : Nat) (description : String)
      (raw_bytes : String) (tag_position : Nat)
  | regular (message : String)
  | binary (message : String)
  | errorMsg (message : String)
deriving DecidableEq, Repr

/-- The M1ProposeSidechain tag `[0xD5, 0xE0, 0xC4, 0xAF]`. -/
def m1ProposeTag : List Nat := [0xD5, 0xE0, 0xC4, 0xAF]

/-- The scan loop `for i in range(len(scriptsig_bytes) - 3)`: the first
offset whose 4-byte window equals the tag, or `none`. -/
def scanTagFrom : List Nat → Nat → Option Nat
  | b0 :: b1 :: b2 :: b3 :: rest, i =>
    if b0 = 0xD5 ∧ b1 = 0xE0 ∧ b2 = 0xC4 ∧ b3 = 0xAF then some i
    else scanTagFrom (b1 :: b2 :: b3 :: rest) (i + 1)
  | _, _ => none

/-- The cleaned text of a decoded byte sequence: UTF-8 decode with
`errors='ignore'`, drop non-printable non-whitespace characters, strip. -/
def cleanedTextOf (bs : List Nat) : String :=
  pyStrip (stringOfCodes (cleanCodes (utf8DecodeIgnore bs)))

/-- The 4-byte window at offset `d` equals the M1ProposeSidechain tag. -/
def isTagAt (bs : List Nat) (d : Nat) : Prop := (bs.drop d).take 4 = m1ProposeTag

instance (bs : List Nat) (d : Nat) : Decidable (isTagAt bs d) := by
  unfold isTagAt; infer_instance

/-- `decode_coinbase_message` (app.py lines 287-327).  The UTF-8 decode
uses `errors='ignore'` and therefore never raises: the source's ASCII
retry and `"Binary data (not text)"` fallback branches are unreachable
and do not appear in the embedding. -/
def decode_coinbase_message (scriptsig_hex : String) : DecodedMsg :=
  if scriptsig_hex = "" then .noneMsg "N/A"
  else
    let s := pyStrip scriptsig_hex
    match pyFromHex s with
    | none => .errorMsg "Decode error"
    | some bs =>
      if bs.length < 2 then .noneMsg "Invalid coinbase data"
      else
        let cleaned := cleanedTextOf (bs.drop 1)
        .regular (if cleaned = "" then "Empty message" else cleaned)

/-- `decode_bip300301_message` (app.py lines 226-285).  The argument is
`Option String` so that the `if not scriptsig_hex` guard covers both an
absent (`None`) and an empty scriptsig.  As in the source, `raw_bytes`
carries the reassigned (stripped) hex string, and the description's UTF-8
decode uses `errors='ignore'`, making the `"Binary data (N bytes)"`
fallback branch unreachable. -/
def decode_bip300301_message (scriptsig_hex : Option String) : DecodedMsg :=
  match scriptsig_hex with
  | none => .noneMsg "N/A"
  | some str0 =>
    if str0 = "" then .noneMsg "N/A"
    else
      let s := pyStrip str0
      match pyFromHex s with
      | none => .errorMsg "Decode error"
      | some bs =>
        if bs.length < 4 then .noneMsg "Invalid coinbase data"
        else
          match scanTagFrom bs 0 with
          | some i =>
            match bs.drop (i + 4) with
            | [] => .m1Incomplete "Incomplete M1ProposeSidechain message"
            | n :: descBytes => .m1Propose n (cleanedTextOf descBytes) s i
          | none => decode_coinbase_message s

/-! ## JSON values, the Redis-backed cache layer, and upstream fetches -/

/-- A JSON value (the payloads exchanged with the upstream API and stored
in the cache). -/
inductive JVal where
  | jnull : JVal
  | jbool : Bool → JVal
  | jnum : ℚ → JVal
  | jstr : String → JVal
  | jarr : List JVal → JVal
  | jobj : List (String × JVal) → JVal

/-- Whether an optional JSON value is exactly JSON `null`
(`... is None` on a looked-up field). -/
def isNullOpt : Option JVal → Bool
  | some .jnull => true
  | _ => false

/-- Whether a JSON value is exactly the string `s` (Python `==` between a
string and a JSON value). -/
def isStrVal (s : String) : JVal → Bool
  | .jstr t => t = s
  | _ => false

/-- Python truthiness of a JSON value (`if cached_data:` and similar). -/
def jTruthy (v : JVal) : Bool :=
  match v with
  | .jnull => false
  | .jbool b => b
  | .jnum q => if q = 0 then false else true
  | .jstr s => s ≠ ""
  | .jarr xs => !xs.isEmpty
  | .jobj kvs => !kvs.isEmpty

/-- `key in dict` on an association list. -/
def objMem (k : String) (kvs : List (String × JVal)) : Bool :=
  kvs.any (fun p => p.1 = k)

/-- `dict[key]` lookup. -/
def objGet (k : String) (kvs : List (String × JVal)) : Option JVal :=
  (kvs.find? (fun p => p.1 = k)).map (fun p => p.2)

/-- `dict[key] = v`: replace in place if the key exists (Python dicts keep
the key's insertion position), else append. -/
def objSet (k : String) (v : JVal) : List (String × JVal) → List (String × JVal)
  | [] => [(k, v)]
  | (k', v') :: rest => if k' = k then (k', v) :: rest else (k', v') :: objSet k v rest

/-- Leading-sequence test on char lists (for Python's `in` on strings). -/
def listStartsWith : List Char → List Char → Bool
  | [], _ => true
  | _ :: _, [] => false
  | p :: ps, c :: cs => p = c && listStartsWith ps cs

/-- Occurrence of `pat` as a contiguous subsequence of `l`. -/
def seqOccurs (pat : List Char) : List Char → Bool
  | [] => pat.isEmpty
  | c :: rest => listStartsWith pat (c :: rest) || seqOccurs pat rest

/-- Python `pat in s` on strings (substring test). -/
def strContainsSub (s pat : String) : Bool := seqOccurs pat.data s.data

/-- The state of the external key-value store together with the
process-wide availability flag (`REDIS_AVAILABLE`, probed once at
startup).  Entries hold the deserialized JSON value (`json.dumps` /
`json.loads` round-trip on these values is the identity); TTL expiry is
not modelled — the embedding has no clock, an entry simply persists until
overwritten. -/
structure Store where
  redisAvailable : Bool
  entries : List (String × JVal)

def CACHE_TTL : Nat := 300
def PRICE_CACHE_TTL : Nat := 60

/-- `hashlib.md5(identifier.encode()).hexdigest()` is an external library
digest; it is modelled as an injective deterministic encoding of the
identifier, which is the only property the key derivation relies on. -/
def md5_hexdigest (s : String) : String := s

/-- `get_cache_key` (app.py lines 75-77). -/
def get_cache_key (api_type identifier : String) : String :=
  "blockchain_explorer:" ++ api_type ++ ":" ++ md5_hexdigest identifier

/-- `get_from_cache` (app.py lines 79-90): `None` when Redis is
unavailable or the key is absent, else the deserialized value.  (Transport
errors after a successful startup probe are swallowed to `None` in the
source; they are not modelled separately here.) -/
def get_from_cache (st : Store) (cache_key : String) : Option JVal :=
  if st.redisAvailable then (st.entries.find? (fun p => p.1 = cache_key)).map (fun p => p.2)
  else none

/-- `set_cache` (app.py lines 92-102): `False` (and no write) when Redis
is unavailable, else `SETEX` the serialized value and return `True`. -/
def set_cache (st : Store) (cache_key : String) (data : JVal) (ttl : Nat) : Bool × Store :=
  if st.redisAvailable then (true, { st with entries := objSet cache_key data st.entries })
  else (false, st)

/-- The common read pattern of the handlers: unless `force_refresh`, look
the key up and use the value only if it is truthy (`if cached_data:`). -/
def cacheLookupTruthy (st : Store) (cache_key : String) (force_refresh : Bool) : Option JVal :=
  if force_refresh then none
  else
    match get_from_cache st cache_key with
    | some c => if jTruthy c then some c else none
    | none => none

/-- Outcome of one upstream `requests.get` call, as an oracle parameter:
the outcome classes map onto the handlers' `except` arms (`Timeout`,
`ConnectionError`, `HTTPError` with the upstream status code, other
`RequestException`s, and a payload that fails `.json()` parsing, which
the generic `except Exception` arm catches). -/
inductive FetchResult where
  | ok : JVal → FetchResult
  | timeout : FetchResult
  | connErr : FetchResult
  | httpErr : Nat → FetchResult
  | reqErr : FetchResult
  | malformed : FetchResult

/-- An HTTP response of a handler: status code and JSON body. -/
structure HttpResponse where
  status : Nat
  body : JVal

/-- The shared `except` arms of the proxy handlers. -/
def failureResponse : FetchResult → HttpResponse
  | .ok d => { status := 200, body := d }
  | .timeout =>
    { status := 504,
      body := .jobj [("error", .jstr "Request timeout"),
        ("message", .jstr "The external API took too long to respond")] }
  | .connErr =>
    { status := 503,
      body := .jobj [("error", .jstr "Connection error"),
        ("message", .jstr "Could not connect to the external API. Please check if the API is accessible.")] }
  | .httpErr code =>
    { status := code,
      body := .jobj [("error", .jstr "HTTP error"),
        ("message", .jstr "External API returned error")] }
  | .reqErr =>
    { status := 500,
      body := .jobj [("error", .jstr "Request failed"),
        ("message", .jstr "An error occurred while fetching data")] }
  | .malformed =>
    { status := 500,
      body := .jobj [("error", .jstr "Internal server error"),
        ("message", .jstr "An unexpected error occurred")] }

/-- The generic `except Exception` 500 response. -/
def internalErrorResponse : HttpResponse :=
  { status := 500,
    body := .jobj [("error", .jstr "Internal server error"),
      ("message", .jstr "An unexpected error occurred")] }

/-- Run a Python `for` loop body over a list, stopping at the first
uncaught exception (`Except.error`). -/
def mapE (f : JVal → Except Unit JVal) : List JVal → Except Unit (List JVal)
  | [] => .ok []
  | x :: xs =>
    match f x, mapE f xs with
    | .ok y, .ok ys => .ok (y :: ys)
    | .error e, _ => .error e
    | _, .error e => .error e

/-! ### Sidechain annotation of fetched transactions (app.py lines 1306-1322) -/

/-- The dictionary `decode_bip300301_message` returns, as a JSON value
(attached under the `sidechain_message` key). -/
def jvalOfDecoded : DecodedMsg → JVal
  | .noneMsg m => .jobj [("type", .jstr "none"), ("message", .jstr m)]
  | .m1Incomplete m => .jobj [("type", .jstr "m1_propose"), ("message", .jstr m)]
  | .m1Propose n d raw pos =>
    .jobj [("type", .jstr "m1_propose_sidechain"), ("message", .jstr "M1ProposeSidechain"),
      ("sidechain_number", .jnum n), ("description", .jstr d),
      ("raw_bytes", .jstr raw), ("tag_position", .jnum pos)]
  | .regular m => .jobj [("type", .jstr "regular"), ("message", .jstr m)]
  | .binary m => .jobj [("type", .jstr "binary"), ("message", .jstr m)]
  | .errorMsg m => .jobj [("type", .jstr "error"), ("message", .jstr m)]

/-- `decode_bip300301_message` as called on a JSON field value: a
non-string truthy scriptsig raises inside the decoder's own `try` (on
`.strip()`), which its blanket `except` turns into the error dict; falsy
values take the `if not scriptsig_hex` arm. -/
def decodeOfJArg (v : JVal) : DecodedMsg :=
  match v with
  | .jstr s => decode_bip300301_message (some s)
  | other => if jTruthy other then .errorMsg "Decode error" else .noneMsg "N/A"

/-- Loop body over one `vin` entry: a non-dict entry raises
(`.get` on it is an `AttributeError`); a dict flagged coinbase with a
`scriptsig` key gets `sidechain_message` attached. -/
def annotateInput (inp : JVal) : Except Unit JVal :=
  match inp with
  | .jobj kvs =>
    if jTruthy ((objGet "is_coinbase" kvs).getD (.jbool false)) ∧ objMem "scriptsig" kvs then
      .ok (.jobj (objSet "sidechain_message"
        (jvalOfDecoded (decodeOfJArg ((objGet "scriptsig" kvs).getD .jnull))) kvs))
    else .ok inp
  | _ => .error ()

/-- Loop body over one transaction: `'vin' in tx` is a key test on dicts,
a substring test on strings, membership on lists, and a `TypeError` on
anything else; iterating a non-list `vin` value or indexing a non-dict
raises. -/
def annotateTx (tx : JVal) : Except Unit JVal :=
  match tx with
  | .jobj kvs =>
    if objMem "vin" kvs then
      match objGet "vin" kvs with
      | some (.jarr ins) =>
        match mapE annotateInput ins with
        | .ok ins' => .ok (.jobj (objSet "vin" (.jarr ins') kvs))
        | .error e => .error e
      | _ => .error ()
    else .ok tx
  | .jstr s => if strContainsSub s "vin" then .error () else .ok tx
  | .jarr xs => if xs.any (isStrVal "vin") then .error () else .ok tx
  | _ => .error ()

/-- The post-fetch enrichment of `get_transactions`: process a list of
transactions, or a dict's `transactions` list, in place. -/
def annotateData (data : JVal) : Except Unit JVal :=
  match data with
  | .jarr txs =>
    match mapE annotateTx txs with
    | .ok txs' => .ok (.jarr txs')
    | .error e => .error e
  | .jobj kvs =>
    if objMem "transactions" kvs then
      match objGet "transactions" kvs with
      | some (.jarr txs) =>
        match mapE annotateTx txs with
        | .ok txs' => .ok (.jobj (objSet "transactions" (.jarr txs') kvs))
        | .error e => .error e
      | _ => .error ()
    else .ok data
  | other => .ok other

/-! ### `get_transactions` (app.py lines 1268-1362) -/

/-- The `/api/address/<address>/txs` handler: validate, consult the cache
unless `force_refresh`, else fetch upstream, annotate coinbase inputs,
cache the enriched data, and return it; upstream failures map to
classified error responses without touching the cache. -/
def get_transactions (st : Store) (address : String) (force_refresh : Bool)
    (upstream : FetchResult) : HttpResponse × Store :=
  if address = "" ∨ address.length < 10 then
    ({ status := 400,
       body := .jobj [("error", .jstr "Invalid address format"),
         ("message", .jstr "Please provide a valid blockchain address")] }, st)
  else
    let cache_key := get_cache_key "address" address
    match cacheLookupTruthy st cache_key force_refresh with
    | some c => ({ status := 200, body := c }, st)
    | none =>
      match upstream with
      | .ok data =>
        match annotateData data with
        | .ok data' =>
          ({ status := 200, body := data' }, (set_cache st cache_key data' CACHE_TTL).2)
        | .error _ => (internalErrorResponse, st)
      | f => (failureResponse f, st)

/-! ### `get_block_transactions` (app.py lines 1382-1480) -/

/-- Python slice-bound normalization for a list of length `len`. -/
def pySliceIdx (len : ℤ) (i : ℤ) : ℤ := if i < 0 then max 0 (len + i) else min i len

/-- Python `xs[a:b]`. -/
def pySlice (xs : List JVal) (a b : ℤ) : List JVal :=
  (xs.take (pySliceIdx xs.length b).toNat).drop (pySliceIdx xs.length a).toNat

/-- The `/api/block/<block_hash>/txs` handler.  A request carrying
`start_index` or `limit` sets `cache_key = None`, so it neither reads nor
writes the cache (the in-memory slicing arm below is translated from the
source but is unreachable: it sits under both `cache_key` being set and a
pagination parameter being present); pagination parameters are forwarded
upstream instead. -/
def get_block_transactions (st : Store) (block_hash : String) (force_refresh : Bool)
    (start_index limit : Option ℤ) (upstream : FetchResult) : HttpResponse × Store :=
  if block_hash = "" ∨ block_hash.length < 10 then
    ({ status := 400,
       body := .jobj [("error", .jstr "Invalid block hash format"),
         ("message", .jstr "Please provide a valid block hash")] }, st)
  else
    let paginated := start_index.isSome ∨ limit.isSome
    let cache_key : Option String :=
      if paginated then none else some (get_cache_key "block" block_hash)
    let cached : Option JVal :=
      match cache_key with
      | some key => cacheLookupTruthy st key force_refresh
      | none => none
    match cached with
    | some c =>
      if paginated then
        match c with
        | .jarr xs =>
          let s := start_index.getD 0
          let e := match limit with | some l => s + l | none => (xs.length : ℤ)
          ({ status := 200, body := .jarr (pySlice xs s e) }, st)
        | _ => ({ status := 200, body := c }, st)
      else ({ status := 200, body := c }, st)
    | none =>
      match upstream with
      | .ok data =>
        match cache_key with
        | some key => ({ status := 200, body := data }, (set_cache st key data CACHE_TTL).2)
        | none => ({ status := 200, body := data }, st)
      | f => (failureResponse f, st)

/-! ### `get_latest_blocks` (app.py lines 1838-1928) -/

/-- `calculate_megahash` applied to a JSON field value: JSON numbers and
booleans are Python numbers (`True` is `1`, `False` is `0`), lists and
dicts make its arithmetic raise `TypeError`, which it catches to `0`. -/
def pyValOfJ (v : JVal) : PyVal :=
  match v with
  | .jnull => .vnone
  | .jbool b => .vnum (if b then 1 else 0)
  | .jnum q => .vnum q
  | .jstr s => .vstr s
  | .jarr _ => .vother
  | .jobj _ => .vother

/-- The recomputed `megahash` of a block's `difficulty` field. -/
def megahashOfField (kvs : List (String × JVal)) : JVal :=
  .jnum (calculate_megahash (pyValOfJ ((objGet "difficulty" kvs).getD .jnull)))

/-- Cache-hit loop body of `get_latest_blocks`: recompute `megahash` when
`difficulty` is present and non-null, else set it to `0` only when
absent.  Non-dict blocks raise on the `in` test or the assignment, except
a string or list containing `"megahash"` (and not `"difficulty"`), which
passes through untouched. -/
def enrichHitBlock (block : JVal) : Except Unit JVal :=
  match block with
  | .jobj kvs =>
    if objMem "difficulty" kvs && !isNullOpt (objGet "difficulty" kvs) then
      .ok (.jobj (objSet "megahash" (megahashOfField kvs) kvs))
    else if !objMem "megahash" kvs then .ok (.jobj (objSet "megahash" (.jnum 0) kvs))
    else .ok block
  | .jstr s =>
    if strContainsSub s "difficulty" then .error ()
    else if strContainsSub s "megahash" then .ok block
    else .error ()
  | .jarr xs =>
    if xs.any (isStrVal "difficulty") then .error ()
    else if xs.any (isStrVal "megahash") then .ok block
    else .error ()
  | _ => .error ()

/-- Cache-miss loop body of `get_latest_blocks`: recompute `megahash`
when `difficulty` is present and non-null, else always set it to `0`.
Non-dict blocks raise on the `in` test, the lookup, or the assignment. -/
def enrichMissBlock (block : JVal) : Except Unit JVal :=
  match block with
  | .jobj kvs =>
    if objMem "difficulty" kvs && !isNullOpt (objGet "difficulty" kvs) then
      .ok (.jobj (objSet "megahash" (megahashOfField kvs) kvs))
    else .ok (.jobj (objSet "megahash" (.jnum 0) kvs))
  | _ => .error ()

/-- The `/api/blocks/latest` handler.  On a cache hit the blocks get
their `megahash` recomputed and the list is reversed before returning;
on a miss the fetched list is enriched, cached, and returned in upstream
order (no reversal). -/
def get_latest_blocks (st : Store) (force_refresh : Bool) (upstream : FetchResult) :
    HttpResponse × Store :=
  let cache_key := get_cache_key "latest_blocks" "latest"
  match cacheLookupTruthy st cache_key force_refresh with
  | some c =>
    match c with
    | .jarr blocks =>
      match mapE enrichHitBlock blocks with
      | .ok blocks' => ({ status := 200, body := .jarr blocks'.reverse }, st)
      | .error _ => (internalErrorResponse, st)
    | .jobj kvs =>
      if objMem "difficulty" kvs then
        ({ status := 200, body := .jobj (objSet "megahash" (megahashOfField kvs) kvs) }, st)
      else ({ status := 200, body := c }, st)
    | other => ({ status := 200, body := other }, st)
  | none =>
    match upstream with
    | .ok data =>
      match data with
      | .jarr blocks =>
        match mapE enrichMissBlock blocks with
        | .ok blocks' =>
          ({ status := 200, body := .jarr blocks' },
            (set_cache st cache_key (.jarr blocks') CACHE_TTL).2)
        | .error _ => (internalErrorResponse, st)
      | .jobj kvs =>
        if objMem "difficulty" kvs then
          let d := JVal.jobj (objSet "megahash" (megahashOfField kvs) kvs)
          ({ status := 200, body := d }, (set_cache st cache_key d CACHE_TTL).2)
        else ({ status := 200, body := data }, (set_cache st cache_key data CACHE_TTL).2)
      | other => ({ status := 200, body := other }, (set_cache st cache_key other CACHE_TTL).2)
    | f => (failureResponse f, st)

/-! ## The background price-refresh worker (app.py lines 120-182) -/

/-- Process state the price machinery touches: the shared store, the
module-global `current_bitcoin_price`, and bookkeeping for the worker
loop (`ticks` counts completed iterations, `elapsed` accumulates the
`time.sleep` units). -/
structure PriceState where
  store : Store
  currentPrice : Option JVal
  ticks : Nat
  elapsed : Nat

/-- Outcome of one `requests.get` against the price source: a parsed
price, or any failure (timeout, transport error, non-2xx, malformed
payload), which `fetch_bitcoin_price` swallows into returning `None`. -/
inductive PriceFetchOutcome where
  | success : ℚ → String → PriceFetchOutcome
  | failure : PriceFetchOutcome

def BITCOIN_PRICE_CACHE_KEY : String := "bitcoin_price_usd"

/-- The snapshot dictionary `fetch_bitcoin_price` serializes into Redis. -/
def priceEntry (p : ℚ) (ts : String) : JVal :=
  .jobj [("price_usd", .jnum p), ("timestamp", .jstr ts), ("source", .jstr "coingecko")]

/-- `fetch_bitcoin_price` (app.py lines 120-143): on success write the
snapshot into Redis (when available) and return the price; on any failure
log and return `None`, leaving the store untouched. -/
def fetch_bitcoin_price (st : Store) (outcome : PriceFetchOutcome) : Option ℚ × Store :=
  match outcome with
  | .success p ts =>
    (some p,
      if st.redisAvailable then
        { st with entries := objSet BITCOIN_PRICE_CACHE_KEY (priceEntry p ts) st.entries }
      else st)
  | .failure => (none, st)

/-- One iteration of `price_update_worker` (app.py lines 166-174): call
`fetch_bitcoin_price` (discarding its return value — the worker never
touches `current_bitcoin_price`), then `time.sleep(60)`; the `except` arm
also sleeps 60, so a failed fetch changes nothing but the bookkeeping. -/
def price_update_worker_step (s : PriceState) (outcome : PriceFetchOutcome) : PriceState :=
  { s with
    store := (fetch_bitcoin_price s.store outcome).2
    ticks := s.ticks + 1
    elapsed := s.elapsed + 60 }

/-- `price_update_worker`'s `while True` loop run over a list of fetch
outcomes. -/
def price_update_worker_run (s : PriceState) (outcomes : List PriceFetchOutcome) : PriceState :=
  outcomes.foldl price_update_worker_step s

/-- `get_bitcoin_price` (app.py lines 145-164): serve the cached snapshot
(updating the global) when Redis holds one with a readable `price_usd`
field; otherwise fetch on demand — a truthy fetched price updates the
global, and the (possibly stale) global is returned. -/
def get_bitcoin_price (s : PriceState) (onMiss : PriceFetchOutcome) : Option JVal × PriceState :=
  let cachedPrice : Option JVal :=
    match get_from_cache s.store BITCOIN_PRICE_CACHE_KEY with
    | some (.jobj kvs) => objGet "price_usd" kvs
    | _ => none
  match cachedPrice with
  | some v => (some v, { s with currentPrice := some v })
  | none =>
    let fr := fetch_bitcoin_price s.store onMiss
    match fr.1 with
    | some p =>
      if p = 0 then (s.currentPrice, { s with store := fr.2 })
      else (some (.jnum p), { s with store := fr.2, currentPrice := some (.jnum p) })
    | none => (s.currentPrice, { s with store := fr.2 })

/-! ### Evaluation lemmas for `round2` -/

theorem roundHalfEven_eq_of_lt_half (q : ℚ) (n : ℤ) (h1 : (n : ℚ) ≤ q)
    (h2 : q < (n : ℚ) + 1/2) : roundHalfEven q = n := by
  have hf : ⌊q⌋ = n := by
    rw [Int.floor_eq_iff]
    constructor
    · exact h1
    · linarith
  unfold roundHalfEven
  simp only [hf]
  rw [if_pos]
  linarith

theorem roundHalfEven_eq_of_half_lt (q : ℚ) (n : ℤ) (h1 : (n : ℚ) + 1/2 < q)
    (h2 : q < (n : ℚ) + 1) : roundHalfEven q = n + 1 := by
  have hf : ⌊q⌋ = n := by
    rw [Int.floor_eq_iff]
    constructor
    · linarith
    · linarith
  unfold roundHalfEven
  simp only [hf]
  rw [if_neg (by linarith), if_pos (by linarith)]

theorem round2_eq_of_lt_half (x : ℚ) (n : ℤ) (h1 : (n : ℚ) ≤ x * 100)
    (h2 : x * 100 < (n : ℚ) + 1/2) : round2 x = (n : ℚ) / 100 := by
  unfold round2
  rw [roundHalfEven_eq_of_lt_half (x * 100) n h1 h2]

theorem round2_eq_of_half_lt (x : ℚ) (n : ℤ) (h1 : (n : ℚ) + 1/2 < x * 100)
    (h2 : x * 100 < (n : ℚ) + 1) : round2 x = ((n : ℚ) + 1) / 100 := by
  unfold round2
  rw [roundHalfEven_eq_of_half_lt (x * 100) n h1 h2]
  push_cast
  ring

example : calculate_megahash (.vnum 600000000) = 4294967296 := by
  show round2 (600000000 * 2 ^ 32 / (600 * 10 ^ 6)) = 4294967296
  rw [round2_eq_of_lt_half _ 429496729600 (by norm_num) (by norm_num)]
  norm_num

example : calculate_megahash (.vnum 600000) = 42949673 / 10 := by
  show round2 (600000 * 2 ^ 32 / (600 * 10 ^ 6)) = 42949673 / 10
  rw [round2_eq_of_half_lt _ 429496729 (by norm_num) (by norm_num)]
  norm_num

example : pyFloat "123.5" = some (1235, -1) := by decide

example : calculate_megahash (.vstr "123.5") = calculate_megahash (.vnum (247/2)) := by
  show round2 (decLit (1235, -1) * 2 ^ 32 / (600 * 10 ^ 6)) =
    if (247/2 : ℚ) = 0 then 0 else round2 (247/2 * 2 ^ 32 / (600 * 10 ^ 6))
  rw [if_neg (by norm_num)]
  norm_num [decLit]

example : utf8DecodeIgnore [0x74, 0x65, 0x73, 0x74] = [0x74, 0x65, 0x73, 0x74] := by decide
example : utf8DecodeIgnore [0xFF] = [] := by decide
example : utf8DecodeIgnore [0xC3, 0xA9] = [0xE9] := by decide
example : utf8DecodeIgnore [0xE0, 0x9F, 0x80] = [] := by decide


example :
    decode_bip300301_message (some "d5e0c4af02746573746e6574") =
      .m1Propose 2 "testnet" "d5e0c4af02746573746e6574" 0 := by decide
example : decode_bip300301_message none = .noneMsg "N/A" := by decide
example : decode_bip300301_message (some "") = .noneMsg "N/A" := by decide
example : decode_bip300301_message (some "zz") = .errorMsg "Decode error" := by decide
example : decode_bip300301_message (some "ab") = .noneMsg "Invalid coinbase data" := by decide
example : decode_bip300301_message (some "d5e0c4af02ff") = .m1Propose 2 "" "d5e0c4af02ff" 0 := by
  decide

/-! ## Supporting lemmas -/

theorem round2_zero : round2 0 = 0 := by
  unfold round2
  rw [show (0 : ℚ) * 100 = 0 by ring, roundHalfEven_eq_of_lt_half 0 0 (by norm_num) (by norm_num)]
  norm_num

/-! ## Claim C2: `calculate_megahash` -/

/-- C2 counterexample: the claim states `calculate_megahash(600_000_000) ≈
4294967.30`, but the code computes `600_000_000 * 2^32 / (600 * 10^6) =
2^32 = 4294967296`, three orders of magnitude away. -/
theorem c2_counterexample :
    calculate_megahash (.vnum 600000000) = 4294967296 ∧
      calculate_megahash (.vnum 600000000) ≠ 42949673 / 10 ∧
      1000000 < |calculate_megahash (.vnum 600000000) - 42949673 / 10| := by
  have h : calculate_megahash (.vnum 600000000) = 4294967296 := by
    show round2 (600000000 * 2 ^ 32 / (600 * 10 ^ 6)) = 4294967296
    rw [round2_eq_of_lt_half _ 429496729600 (by norm_num) (by norm_num)]
    norm_num
  refine ⟨h, by rw [h]; norm_num, by rw [h]; rw [abs_of_pos (by norm_num)]; norm_num⟩

/-- C2 (amended): `calculate_megahash` computes `difficulty * 2^32 /
(600 * 10^6)` rounded to 2 decimals, with `None` and `0` mapping to `0`
and string inputs behaving as the parsed number; the concrete value
`≈ 4294967.30` belongs to difficulty `600_000`, while difficulty
`600_000_000` yields exactly `4294967296`. -/
theorem c2_megahash :
    calculate_megahash .vnone = 0 ∧
      calculate_megahash (.vnum 0) = 0 ∧
      (∀ s m e, pyFloat s = some (m, e) →
        calculate_megahash (.vstr s) = calculate_megahash (.vnum (decLit (m, e)))) ∧
      (∀ s, pyFloat s = none → calculate_megahash (.vstr s) = 0) ∧
      (∀ q : ℚ, q ≠ 0 → calculate_megahash (.vnum q) = round2 (q * 2 ^ 32 / (600 * 10 ^ 6))) ∧
      calculate_megahash (.vnum 600000000) = 4294967296 ∧
      calculate_megahash (.vnum 600000) = 42949673 / 10 := by
  refine ⟨rfl, by simp [calculate_megahash], ?_, ?_, ?_, ?_, ?_⟩
  · intro s m e hp
    simp only [calculate_megahash, hp]
    by_cases h0 : decLit (m, e) = 0
    · rw [if_pos h0, h0]
      rw [show (0 : ℚ) * 2 ^ 32 / (600 * 10 ^ 6) = 0 by ring, round2_zero]
    · rw [if_neg h0]
  · intro s hp
    simp only [calculate_megahash, hp]
  · intro q hq
    simp only [calculate_megahash]
    rw [if_neg hq]
  · show round2 (600000000 * 2 ^ 32 / (600 * 10 ^ 6)) = 4294967296
    rw [round2_eq_of_lt_half _ 429496729600 (by norm_num) (by norm_num)]
    norm_num
  · show round2 (600000 * 2 ^ 32 / (600 * 10 ^ 6)) = 42949673 / 10
    rw [round2_eq_of_half_lt _ 429496729 (by norm_num) (by norm_num)]
    norm_num

/-- C2 witness: the string `"123.5"` parses to `1235 * 10^(-1)` and the
string input behaves as that number. -/
theorem c2_megahash_witness :
    pyFloat "123.5" = some (1235, -1) ∧
      calculate_megahash (.vstr "123.5") = calculate_megahash (.vnum (decLit (1235, -1))) :=
  ⟨by decide, c2_megahash.2.2.1 "123.5" 1235 (-1) (by decide)⟩

/-! ## Claim C5: decoder totality and degenerate inputs -/

/-- C5: the decoder is total by construction (it is a Lean function, so
no input raises); an absent or empty input yields the `none` kind, every
input whose stripped text is not valid hex yields the `error` kind, and
every valid-hex input whose decoded length is below 4 bytes yields the
`none` kind with message `"Invalid coinbase data"`. -/
theorem c5_decoder_totality :
    decode_bip300301_message none = .noneMsg "N/A" ∧
      decode_bip300301_message (some "") = .noneMsg "N/A" ∧
      (∀ s : String, s ≠ "" → pyFromHex (pyStrip s) = none →
        decode_bip300301_message (some s) = .errorMsg "Decode error") ∧
      (∀ (s : String) (bs : List Nat), s ≠ "" → pyFromHex (pyStrip s) = some bs →
        bs.length < 4 → decode_bip300301_message (some s) = .noneMsg "Invalid coinbase data") := by
  refine ⟨rfl, by decide, ?_, ?_⟩
  · intro s hne hhex
    simp only [decode_bip300301_message, if_neg hne, hhex]
  · intro s bs hne hhex hlen
    simp only [decode_bip300301_message, if_neg hne, hhex, if_pos hlen]

/-- C5 witness: `"zz"` is not valid hex and decodes to the `error` kind;
`"ab"` is one byte of valid hex and decodes to the `none` kind. -/
theorem c5_decoder_totality_witness :
    (pyFromHex (pyStrip "zz") = none ∧
        decode_bip300301_message (some "zz") = .errorMsg "Decode error") ∧
      (pyFromHex (pyStrip "ab") = some [0xAB] ∧ ([0xAB] : List Nat).length < 4 ∧
        decode_bip300301_message (some "ab") = .noneMsg "Invalid coinbase data") :=
  ⟨⟨by decide, c5_decoder_totality.2.2.1 "zz" (by decide) (by decide)⟩,
    ⟨by decide, by decide,
      c5_decoder_totality.2.2.2 "ab" [0xAB] (by decide) (by decide) (by decide)⟩⟩

/-! ## Claim C6: the concrete SidechainPropose decode -/

/-- C6: `"d5e0c4af02" + hex("testnet")` decodes to a SidechainPropose
message with sidechain number `2`, description `"testnet"`, tag offset
`0`, and raw bytes equal to the input hex string. -/
theorem c6_propose_testnet :
    decode_bip300301_message (some ("d5e0c4af02" ++ bytesToHex ("testnet".data.map Char.toNat))) =
      .m1Propose 2 "testnet" ("d5e0c4af02" ++ bytesToHex ("testnet".data.map Char.toNat)) 0 := by
  decide

/-! ## Claim C3: description decoding in the SidechainPropose path -/

/-- C3 counterexample: the description bytes `[0xFF]` do not decode as
UTF-8, yet the result is the empty description (the undecodable byte is
dropped by `errors='ignore'`), not a `"... binary bytes"` fallback — the
source's fallback branch is unreachable. -/
theorem c3_counterexample :
    decode_bip300301_message (some "d5e0c4af02ff") = .m1Propose 2 "" "d5e0c4af02ff" 0 ∧
      "" ≠ "1 binary bytes" ∧ "" ≠ "Binary data (1 bytes)" := by
  refine ⟨by decide, by decide, by decide⟩

/-! ## Hex round-trip lemmas -/

theorem hexDigitChar_spec (d : Nat) (hd : d < 16) :
    isAsciiWs (hexDigitChar d) = false ∧ isPySpace (hexDigitChar d) = false ∧
      hexDigitVal (hexDigitChar d) = some d := by
  interval_cases d <;> exact ⟨rfl, rfl, by decide⟩

theorem bytesToHex_data (bs : List Nat) :
    (bytesToHex bs).data =
      bs.foldr (fun b acc => hexDigitChar (b / 16 % 16) :: hexDigitChar (b % 16) :: acc) [] := rfl

theorem bytesToHex_cons (b : Nat) (bs : List Nat) :
    (bytesToHex (b :: bs)).data =
      hexDigitChar (b / 16 % 16) :: hexDigitChar (b % 16) :: (bytesToHex bs).data := rfl

theorem mem_bytesToHex_data (bs : List Nat) (c : Char) (hc : c ∈ (bytesToHex bs).data) :
    ∃ d, d < 16 ∧ c = hexDigitChar d := by
  induction bs with
  | nil => cases hc
  | cons b tl ih =>
    rw [bytesToHex_cons] at hc
    rcases hc with _ | ⟨_, _ | ⟨_, h⟩⟩
    · exact ⟨b / 16 % 16, Nat.mod_lt _ (by norm_num), rfl⟩
    · exact ⟨b % 16, Nat.mod_lt _ (by norm_num), rfl⟩
    · exact ih h

theorem pyFromHex_bytesToHex (bs : List Nat) (h : ∀ b ∈ bs, b < 256) :
    pyFromHex (bytesToHex bs) = some bs := by
  have key : ∀ l : List Nat, (∀ b ∈ l, b < 256) →
      hexPairs ((bytesToHex l).data.filter (fun c => !isAsciiWs c)) = some l := by
    intro l
    induction l with
    | nil => intro _; rfl
    | cons b tl ih =>
      intro hl
      have hb : b < 256 := hl b (List.mem_cons_self b tl)
      have h1 := hexDigitChar_spec (b / 16 % 16) (Nat.mod_lt _ (by norm_num))
      have h2 := hexDigitChar_spec (b % 16) (Nat.mod_lt _ (by norm_num))
      rw [bytesToHex_cons]
      have hf : List.filter (fun c => !isAsciiWs c)
          (hexDigitChar (b / 16 % 16) :: hexDigitChar (b % 16) :: (bytesToHex tl).data) =
          hexDigitChar (b / 16 % 16) :: hexDigitChar (b % 16) ::
            List.filter (fun c => !isAsciiWs c) (bytesToHex tl).data := by
        rw [List.filter_cons, List.filter_cons]
        simp [h1.1, h2.1]
      rw [hf]
      simp only [hexPairs, h1.2.2, h2.2.2, ih (fun x hx => hl x (List.mem_cons_of_mem b hx))]
      have hval : b / 16 % 16 * 16 + b % 16 = b := by omega
      rw [hval]
  unfold pyFromHex
  exact key bs h

theorem pyStrip_bytesToHex (bs : List Nat) : pyStrip (bytesToHex bs) = bytesToHex bs := by
  have hnosp : ∀ c ∈ (bytesToHex bs).data, isPySpace c = false := by
    intro c hc
    obtain ⟨d, hd, rfl⟩ := mem_bytesToHex_data bs c hc
    exact (hexDigitChar_spec d hd).2.1
  have drop_eq : ∀ l : List Char, (∀ c ∈ l, isPySpace c = false) → l.dropWhile isPySpace = l := by
    intro l hl
    cases l with
    | nil => rfl
    | cons c tl => rw [List.dropWhile_cons_of_neg (by simp [hl c (List.mem_cons_self c tl)])]
  show (⟨stripChars (bytesToHex bs).data⟩ : String) = bytesToHex bs
  unfold stripChars
  rw [drop_eq _ hnosp, drop_eq, List.reverse_reverse]
  intro c hc
  exact hnosp c (List.mem_reverse.mp hc)

theorem bytesToHex_ne_empty (b : Nat) (bs : List Nat) : bytesToHex (b :: bs) ≠ "" := by
  intro h
  have := congrArg String.data h
  rw [bytesToHex_cons] at this
  cases this

/-! ## First-match properties of the tag scan -/


theorem length_of_isTagAt (bs : List Nat) (d : Nat) (h : isTagAt bs d) : d + 4 ≤ bs.length := by
  have hlen := congrArg List.length h
  simp only [List.length_take, List.length_drop] at hlen
  have : m1ProposeTag.length = 4 := rfl
  omega

theorem isTagAt_cons_succ (b : Nat) (tl : List Nat) (d : Nat) :
    isTagAt (b :: tl) (d + 1) ↔ isTagAt tl d := by
  unfold isTagAt
  rw [List.drop_succ_cons]

theorem scanTagFrom_eq_some (bs : List Nat) : ∀ k j, scanTagFrom bs k = some j →
    ∃ d, j = k + d ∧ isTagAt bs d ∧ ∀ e < d, ¬ isTagAt bs e := by
  induction bs with
  | nil => intro k j h; cases h
  | cons b0 tl ih =>
    intro k j h
    rcases tl with _ | ⟨b1, _ | ⟨b2, _ | ⟨b3, rest⟩⟩⟩
    · cases h
    · cases h
    · cases h
    · rw [scanTagFrom] at h
      by_cases htag : b0 = 0xD5 ∧ b1 = 0xE0 ∧ b2 = 0xC4 ∧ b3 = 0xAF
      · rw [if_pos htag] at h
        cases h
        refine ⟨0, by omega, ?_, by omega⟩
        obtain ⟨h0, h1, h2, h3⟩ := htag
        subst h0 h1 h2 h3
        rfl
      · rw [if_neg htag] at h
        obtain ⟨d, hd, htagd, hmin⟩ := ih (k + 1) j h
        refine ⟨d + 1, by omega, (isTagAt_cons_succ _ _ _).mpr htagd, ?_⟩
        intro e he
        cases e with
        | zero =>
          intro habs
          have : b0 = 0xD5 ∧ b1 = 0xE0 ∧ b2 = 0xC4 ∧ b3 = 0xAF := by
            have := habs
            unfold isTagAt at this
            simp only [List.drop_zero] at this
            have h0 := congrArg (fun l => l.get? 0) this
            have h1 := congrArg (fun l => l.get? 1) this
            have h2 := congrArg (fun l => l.get? 2) this
            have h3 := congrArg (fun l => l.get? 3) this
            simp only [List.take, List.get?, m1ProposeTag] at h0 h1 h2 h3
            exact ⟨by injection h0, by injection h1, by injection h2, by injection h3⟩
          exact htag this
        | succ e' =>
          intro habs
          exact hmin e' (by omega) ((isTagAt_cons_succ _ _ _).mp habs)

theorem scanTagFrom_isSome (bs : List Nat) : ∀ k d, isTagAt bs d →
    ∃ j, scanTagFrom bs k = some j := by
  induction bs with
  | nil =>
    intro k d h
    have := length_of_isTagAt _ _ h
    simp at this
  | cons b0 tl ih =>
    intro k d h
    have hlen := length_of_isTagAt _ _ h
    rcases tl with _ | ⟨b1, _ | ⟨b2, _ | ⟨b3, rest⟩⟩⟩
    · simp only [List.length_cons, List.length_nil] at hlen; omega
    · simp only [List.length_cons, List.length_nil] at hlen; omega
    · simp only [List.length_cons, List.length_nil] at hlen; omega
    · rw [scanTagFrom]
      by_cases htag : b0 = 0xD5 ∧ b1 = 0xE0 ∧ b2 = 0xC4 ∧ b3 = 0xAF
      · exact ⟨k, by rw [if_pos htag]⟩
      · rw [if_neg htag]
        cases d with
        | zero =>
          exfalso
          apply htag
          unfold isTagAt at h
          simp only [List.drop_zero] at h
          have h0 := congrArg (fun l => l.get? 0) h
          have h1 := congrArg (fun l => l.get? 1) h
          have h2 := congrArg (fun l => l.get? 2) h
          have h3 := congrArg (fun l => l.get? 3) h
          simp only [List.take, List.get?, m1ProposeTag] at h0 h1 h2 h3
          exact ⟨by injection h0, by injection h1, by injection h2, by injection h3⟩
        | succ d' => exact ih (k + 1) d' ((isTagAt_cons_succ _ _ _).mp h)

/-- Reduction of the decoder on a well-formed hex encoding whose byte
list contains the tag. -/
theorem decode_bytesToHex_of_scan (bs : List Nat) (i : Nat)
    (hbytes : ∀ b ∈ bs, b < 256) (hlen : 4 ≤ bs.length)
    (hscan : scanTagFrom bs 0 = some i) :
    decode_bip300301_message (some (bytesToHex bs)) =
      (match bs.drop (i + 4) with
       | [] => .m1Incomplete "Incomplete M1ProposeSidechain message"
       | n :: descBytes => .m1Propose n (cleanedTextOf descBytes) (bytesToHex bs) i) := by
  rcases bs with _ | ⟨b, tl⟩
  · simp at hlen
  · have hne := bytesToHex_ne_empty b tl
    have hfh := pyFromHex_bytesToHex (b :: tl) hbytes
    have hlt : ¬ ((b :: tl).length < 4) := by
      simp only [List.length_cons] at hlen ⊢
      omega
    simp only [decode_bip300301_message, if_neg hne, pyStrip_bytesToHex, hfh, if_neg hlt, hscan]

/-! ## Claim C7: first-match-wins tag scanning -/

/-- C7: whenever the byte list contains the tag window anywhere, the
decoder settles on the smallest matching offset `i` — no earlier offset
matches, any given match is at `i` or later, and the whole result
(sidechain number, description, tag position) is computed from the bytes
after that first match. -/
theorem c7_first_match_wins (bs : List Nat) (d : Nat)
    (hbytes : ∀ b ∈ bs, b < 256) (hd : isTagAt bs d) :
    ∃ i, scanTagFrom bs 0 = some i ∧ isTagAt bs i ∧ i ≤ d ∧ (∀ e, e < i → ¬ isTagAt bs e) ∧
      decode_bip300301_message (some (bytesToHex bs)) =
        (match bs.drop (i + 4) with
         | [] => .m1Incomplete "Incomplete M1ProposeSidechain message"
         | n :: descBytes => .m1Propose n (cleanedTextOf descBytes) (bytesToHex bs) i) := by
  obtain ⟨j, hj⟩ := scanTagFrom_isSome bs 0 d hd
  obtain ⟨d0, hd0, htag0, hmin⟩ := scanTagFrom_eq_some bs 0 j hj
  have hjd : j = d0 := by omega
  subst hjd
  have hled : j ≤ d := by
    by_contra hlt
    exact hmin d (by omega) hd
  have hlen : 4 ≤ bs.length := by
    have := length_of_isTagAt bs d hd
    omega
  exact ⟨j, hj, htag0, hled, hmin, decode_bytesToHex_of_scan bs j hbytes hlen hj⟩

/-- C7 witness: a buffer with tag occurrences at offsets 1 and 6; the
scan settles on offset 1. -/
theorem c7_first_match_wins_witness :
    (∀ b ∈ [0, 0xD5, 0xE0, 0xC4, 0xAF, 7, 0xD5, 0xE0, 0xC4, 0xAF], b < 256) ∧
      isTagAt [0, 0xD5, 0xE0, 0xC4, 0xAF, 7, 0xD5, 0xE0, 0xC4, 0xAF] 6 ∧
      (∃ i, scanTagFrom [0, 0xD5, 0xE0, 0xC4, 0xAF, 7, 0xD5, 0xE0, 0xC4, 0xAF] 0 = some i ∧
        isTagAt [0, 0xD5, 0xE0, 0xC4, 0xAF, 7, 0xD5, 0xE0, 0xC4, 0xAF] i ∧ i ≤ 6 ∧
        (∀ e, e < i → ¬ isTagAt [0, 0xD5, 0xE0, 0xC4, 0xAF, 7, 0xD5, 0xE0, 0xC4, 0xAF] e) ∧
        decode_bip300301_message
            (some (bytesToHex [0, 0xD5, 0xE0, 0xC4, 0xAF, 7, 0xD5, 0xE0, 0xC4, 0xAF])) =
          (match [0, 0xD5, 0xE0, 0xC4, 0xAF, 7, 0xD5, 0xE0, 0xC4, 0xAF].drop (i + 4) with
           | [] => .m1Incomplete "Incomplete M1ProposeSidechain message"
           | n :: descBytes =>
             .m1Propose n (cleanedTextOf descBytes)
               (bytesToHex [0, 0xD5, 0xE0, 0xC4, 0xAF, 7, 0xD5, 0xE0, 0xC4, 0xAF]) i)) :=
  ⟨by decide, by decide,
    c7_first_match_wins [0, 0xD5, 0xE0, 0xC4, 0xAF, 7, 0xD5, 0xE0, 0xC4, 0xAF] 6
      (by decide) (by decide)⟩

/-! ## UTF-8 decoding lemmas -/

theorem u8run_nil (f : Nat) : u8run f [] = [] := by cases f <;> rfl

theorem u8step_shrink (b : Nat) (rest : List Nat) :
    ((u8step (b :: rest)).2).length ≤ rest.length := by
  rcases rest with _ | ⟨c1, _ | ⟨c2, _ | ⟨c3, r4⟩⟩⟩ <;>
    simp only [u8step] <;> split_ifs <;> simp_arith

theorem u8run_fuel (f : Nat) : ∀ (g : Nat) (bs : List Nat),
    bs.length ≤ f → bs.length ≤ g → u8run f bs = u8run g bs := by
  induction f with
  | zero =>
    intro g bs hf _
    have : bs = [] := List.eq_nil_of_length_eq_zero (by omega)
    subst this
    rw [u8run_nil, u8run_nil]
  | succ f ih =>
    intro g bs hf hg
    rcases bs with _ | ⟨b, rest⟩
    · rw [u8run_nil, u8run_nil]
    · rcases g with _ | g'
      · simp only [List.length_cons] at hg
        omega
      · simp only [List.length_cons] at hf hg
        rcases hstep : u8step (b :: rest) with ⟨oc, cont⟩
        have hshr : cont.length ≤ rest.length := by
          have h' := u8step_shrink b rest
          rw [hstep] at h'
          exact h'
        rcases oc with _ | c
        · show u8run (f + 1) (b :: rest) = u8run (g' + 1) (b :: rest)
          simp only [u8run, hstep]
          exact ih g' cont (by omega) (by omega)
        · show u8run (f + 1) (b :: rest) = u8run (g' + 1) (b :: rest)
          simp only [u8run, hstep]
          rw [ih g' cont (by omega) (by omega)]

theorem utf8DecodeIgnore_of_step_some (bs : List Nat) (c : Nat) (cont : List Nat)
    (h : u8step bs = (some c, cont)) :
    utf8DecodeIgnore bs = c :: utf8DecodeIgnore cont := by
  rcases bs with _ | ⟨b, rest⟩
  · simp only [u8step] at h
    cases h
  · have hshr : cont.length ≤ rest.length := by
      have h' := u8step_shrink b rest
      rw [h] at h'
      exact h'
    show u8run (b :: rest).length (b :: rest) = _
    simp only [List.length_cons, u8run, h]
    rw [u8run_fuel rest.length cont.length cont hshr (Nat.le_refl _)]
    rfl

theorem utf8DecodeIgnore_of_step_none (bs : List Nat) (cont : List Nat)
    (h : u8step bs = (none, cont)) :
    utf8DecodeIgnore bs = utf8DecodeIgnore cont := by
  rcases bs with _ | ⟨b, rest⟩
  · simp only [u8step] at h
    cases h
    rfl
  · have hshr : cont.length ≤ rest.length := by
      have h' := u8step_shrink b rest
      rw [h] at h'
      exact h'
    show u8run (b :: rest).length (b :: rest) = _
    simp only [List.length_cons, u8run, h]
    exact u8run_fuel rest.length cont.length cont hshr (Nat.le_refl _)

theorem u8step_encodeOne (c : Nat) (hc : validScalar c) (rest : List Nat) :
    u8step (encodeUtf8One c ++ rest) = (some c, rest) := by
  obtain ⟨hlt, hsur⟩ := hc
  by_cases h1 : c < 0x80
  · simp only [encodeUtf8One, if_pos h1, List.cons_append, List.nil_append]
    simp only [u8step, if_pos h1]
  · by_cases h2 : c < 0x800
    · simp only [encodeUtf8One, if_neg h1, if_pos h2, List.cons_append, List.nil_append]
      have hb1 : ¬ (0xC0 + c / 64 < 0x80) := by omega
      have hb2 : ¬ (0xC0 + c / 64 < 0xC2) := by omega
      have hb3 : 0xC0 + c / 64 ≤ 0xDF := by omega
      have hcont : isCont (0x80 + c % 64) = true := by
        simp only [isCont, decide_eq_true_eq]
        omega
      simp only [u8step, if_neg hb1, if_neg hb2, if_pos hb3, hcont, if_pos,
        Prod.mk.injEq, Option.some.injEq]
      exact ⟨by omega, trivial⟩
    · by_cases h3 : c < 0x10000
      · simp only [encodeUtf8One, if_neg h1, if_neg h2, if_pos h3, List.cons_append,
          List.nil_append]
        have hb1 : ¬ (0xE0 + c / 4096 < 0x80) := by omega
        have hb2 : ¬ (0xE0 + c / 4096 < 0xC2) := by omega
        have hb3 : ¬ (0xE0 + c / 4096 ≤ 0xDF) := by omega
        have hb4 : 0xE0 + c / 4096 ≤ 0xEF := by omega
        have hcont1 : isCont1 (0xE0 + c / 4096) (0x80 + c / 64 % 64) = true := by
          simp only [isCont1, cont1Lo, cont1Hi, decide_eq_true_eq]
          split_ifs <;> omega
        have hcont2 : isCont (0x80 + c % 64) = true := by
          simp only [isCont, decide_eq_true_eq]
          omega
        simp only [u8step, if_neg hb1, if_neg hb2, if_neg hb3, if_pos hb4, hcont1, hcont2,
          if_pos, Prod.mk.injEq, Option.some.injEq]
        exact ⟨by omega, trivial⟩
      · simp only [encodeUtf8One, if_neg h1, if_neg h2, if_neg h3, List.cons_append,
          List.nil_append]
        have hb1 : ¬ (0xF0 + c / 262144 < 0x80) := by omega
        have hb2 : ¬ (0xF0 + c / 262144 < 0xC2) := by omega
        have hb3 : ¬ (0xF0 + c / 262144 ≤ 0xDF) := by omega
        have hb4 : ¬ (0xF0 + c / 262144 ≤ 0xEF) := by omega
        have hb5 : 0xF0 + c / 262144 ≤ 0xF4 := by omega
        have hcont1 : isCont1 (0xF0 + c / 262144) (0x80 + c / 4096 % 64) = true := by
          simp only [isCont1, cont1Lo, cont1Hi, decide_eq_true_eq]
          split_ifs <;> omega
        have hcont2 : isCont (0x80 + c / 64 % 64) = true := by
          simp only [isCont, decide_eq_true_eq]
          omega
        have hcont3 : isCont (0x80 + c % 64) = true := by
          simp only [isCont, decide_eq_true_eq]
          omega
        simp only [u8step, if_neg hb1, if_neg hb2, if_neg hb3, if_neg hb4, if_pos hb5,
          hcont1, hcont2, hcont3, if_pos, Prod.mk.injEq, Option.some.injEq]
        exact ⟨by omega, trivial⟩

theorem u8step_junk (j : Nat) (rest : List Nat) (hj : isJunkByte j) :
    u8step (j :: rest) = (none, rest) := by
  rcases hj with ⟨hlo, hhi⟩ | ⟨hlo, hhi⟩
  · simp only [u8step, if_neg (by omega : ¬ (j < 0x80)), if_pos (by omega : j < 0xC2)]
  · simp only [u8step, if_neg (by omega : ¬ (j < 0x80)), if_neg (by omega : ¬ (j < 0xC2)),
      if_neg (by omega : ¬ (j ≤ 0xDF)), if_neg (by omega : ¬ (j ≤ 0xEF)),
      if_neg (by omega : ¬ (j ≤ 0xF4))]

theorem utf8DecodeIgnore_encode_append (cps : List Nat) (rest : List Nat)
    (h : ∀ c ∈ cps, validScalar c) :
    utf8DecodeIgnore (encodeUtf8 cps ++ rest) = cps ++ utf8DecodeIgnore rest := by
  induction cps with
  | nil => rfl
  | cons c cs ih =>
    have hc : validScalar c := h c (List.mem_cons_self c cs)
    have hstep : encodeUtf8 (c :: cs) ++ rest = encodeUtf8One c ++ (encodeUtf8 cs ++ rest) := by
      show (encodeUtf8One c ++ encodeUtf8 cs) ++ rest = _
      rw [List.append_assoc]
    rw [hstep, utf8DecodeIgnore_of_step_some _ c _ (u8step_encodeOne c hc _),
      ih (fun x hx => h x (List.mem_cons_of_mem c hx))]
    rfl

theorem utf8DecodeIgnore_junk_append (junk : List Nat) (rest : List Nat)
    (h : ∀ b ∈ junk, isJunkByte b) :
    utf8DecodeIgnore (junk ++ rest) = utf8DecodeIgnore rest := by
  induction junk with
  | nil => rfl
  | cons j js ih =>
    rw [List.cons_append, utf8DecodeIgnore_of_step_none _ _
      (u8step_junk j (js ++ rest) (h j (List.mem_cons_self j js))),
      ih (fun x hx => h x (List.mem_cons_of_mem j hx))]

theorem encodeUtf8One_lt256 (c : Nat) (hc : c < 0x110000) :
    ∀ b ∈ encodeUtf8One c, b < 256 := by
  intro b hb
  unfold encodeUtf8One at hb
  split_ifs at hb <;>
    simp only [List.mem_cons, List.not_mem_nil, or_false] at hb <;> omega

theorem encodeUtf8_lt256 (cps : List Nat) (h : ∀ c ∈ cps, validScalar c) :
    ∀ b ∈ encodeUtf8 cps, b < 256 := by
  induction cps with
  | nil => intro b hb; cases hb
  | cons c cs ih =>
    intro b hb
    have : encodeUtf8 (c :: cs) = encodeUtf8One c ++ encodeUtf8 cs := rfl
    rw [this] at hb
    rcases List.mem_append.mp hb with h1 | h2
    · exact encodeUtf8One_lt256 c (h c (List.mem_cons_self c cs)).1 b h1
    · exact ih (fun x hx => h x (List.mem_cons_of_mem c hx)) b h2

/-- C3 (amended): in the SidechainPropose decode path the description is
produced with `errors='ignore'`: byte subsequences that fail to decode
cleanly are *dropped* (the `"N binary bytes"` fallback branch is dead
code and is never produced), the cleanly-decodable parts become the
text, and non-printable non-whitespace characters are stripped before
trimming. -/
theorem c3_description_cleaning (n : Nat) (cps1 junk cps2 : List Nat)
    (hn : n < 256) (h1 : ∀ c ∈ cps1, validScalar c) (hj : ∀ b ∈ junk, isJunkByte b)
    (h2 : ∀ c ∈ cps2, validScalar c) :
    decode_bip300301_message
        (some (bytesToHex (m1ProposeTag ++ n :: (encodeUtf8 cps1 ++ junk ++ encodeUtf8 cps2)))) =
      .m1Propose n (pyStrip (stringOfCodes (cleanCodes (cps1 ++ cps2))))
        (bytesToHex (m1ProposeTag ++ n :: (encodeUtf8 cps1 ++ junk ++ encodeUtf8 cps2))) 0 := by
  have hbytes : ∀ b ∈ m1ProposeTag ++ n :: (encodeUtf8 cps1 ++ junk ++ encodeUtf8 cps2),
      b < 256 := by
    intro b hb
    rcases List.mem_append.mp hb with htag | hrest
    · have hb4 : b = 0xD5 ∨ b = 0xE0 ∨ b = 0xC4 ∨ b = 0xAF := by
        simpa [m1ProposeTag] using htag
      rcases hb4 with rfl | rfl | rfl | rfl <;> norm_num
    · rcases hrest with _ | ⟨_, hdesc⟩
      · exact hn
      · rcases List.mem_append.mp hdesc with hl | hr
        · rcases List.mem_append.mp hl with ha | hb'
          · exact encodeUtf8_lt256 cps1 h1 b ha
          · rcases hj b hb' with ⟨_, hhi⟩ | ⟨_, hhi⟩ <;> omega
        · exact encodeUtf8_lt256 cps2 h2 b hr
  have hlen : 4 ≤ (m1ProposeTag ++ n :: (encodeUtf8 cps1 ++ junk ++ encodeUtf8 cps2)).length := by
    simp [m1ProposeTag]
  have hscan : scanTagFrom (m1ProposeTag ++ n :: (encodeUtf8 cps1 ++ junk ++ encodeUtf8 cps2)) 0 =
      some 0 := rfl
  rw [decode_bytesToHex_of_scan _ 0 hbytes hlen hscan]
  show DecodedMsg.m1Propose n (cleanedTextOf (encodeUtf8 cps1 ++ junk ++ encodeUtf8 cps2)) _ 0 = _
  have hdec : utf8DecodeIgnore (encodeUtf8 cps1 ++ junk ++ encodeUtf8 cps2) = cps1 ++ cps2 := by
    rw [List.append_assoc, utf8DecodeIgnore_encode_append cps1 _ h1,
      utf8DecodeIgnore_junk_append junk _ hj,
      show utf8DecodeIgnore (encodeUtf8 cps2) = utf8DecodeIgnore (encodeUtf8 cps2 ++ []) by
        rw [List.append_nil],
      utf8DecodeIgnore_encode_append cps2 [] h2]
    show cps1 ++ (cps2 ++ utf8DecodeIgnore []) = _
    rw [show utf8DecodeIgnore [] = [] from rfl, List.append_nil]
  unfold cleanedTextOf
  rw [hdec]

/-- C3 witness: sidechain number 2, description bytes
`"te" ++ [0xFF] ++ "st"`: the invalid byte is dropped and the
description is the cleaned decodable text. -/
theorem c3_description_cleaning_witness :
    ((2 : Nat) < 256 ∧ (∀ c ∈ [0x74, 0x65], validScalar c) ∧
        (∀ b ∈ [0xFF], isJunkByte b) ∧ (∀ c ∈ [0x73, 0x74], validScalar c)) ∧
      decode_bip300301_message
          (some (bytesToHex
            (m1ProposeTag ++ 2 :: (encodeUtf8 [0x74, 0x65] ++ [0xFF] ++ encodeUtf8 [0x73, 0x74])))) =
        .m1Propose 2 (pyStrip (stringOfCodes (cleanCodes ([0x74, 0x65] ++ [0x73, 0x74]))))
          (bytesToHex
            (m1ProposeTag ++ 2 :: (encodeUtf8 [0x74, 0x65] ++ [0xFF] ++ encodeUtf8 [0x73, 0x74]))) 0 :=
  ⟨⟨by decide, by decide, by decide, by decide⟩,
    c3_description_cleaning 2 [0x74, 0x65] [0xFF] [0x73, 0x74]
      (by decide) (by decide) (by decide) (by decide)⟩

/-! ## Claim C9: degraded cache-disabled mode -/

/-- C9: when the startup probe left the availability flag false, every
cache read is a well-defined miss and every cache write returns `False`
and stores nothing, for every key, value and TTL. -/
theorem c9_degraded_mode (st : Store) (h : st.redisAvailable = false) :
    (∀ key, get_from_cache st key = none) ∧
      (∀ key v ttl, set_cache st key v ttl = (false, st)) := by
  constructor
  · intro key
    simp [get_from_cache, h]
  · intro key v ttl
    simp [set_cache, h]

/-- C9 witness: a store marked unavailable that even holds an entry for
the probed key still reads as a miss and refuses the write. -/
theorem c9_degraded_mode_witness :
    get_from_cache ⟨false, [("k", JVal.jnull)]⟩ "k" = none ∧
      set_cache ⟨false, [("k", JVal.jnull)]⟩ "k" (JVal.jarr []) 300 =
        (false, ⟨false, [("k", JVal.jnull)]⟩) :=
  ⟨(c9_degraded_mode ⟨false, [("k", JVal.jnull)]⟩ rfl).1 "k",
    (c9_degraded_mode ⟨false, [("k", JVal.jnull)]⟩ rfl).2 "k" (JVal.jarr []) 300⟩

/-! ## Claim C4: no cache write on producer failure -/

/-- C4: for `get_transactions`, an upstream failure leaves the store
(and hence any prior cache entry) unchanged and maps to the classified
error response, and a later `force_refresh=false` read of a still-cached
truthy value serves it from the cache. -/
theorem c4_failure_preserves_cache (st : Store) (address : String) (force : Bool)
    (up : FetchResult) (hfail : ∀ d, up ≠ .ok d) :
    (get_transactions st address force up).2 = st ∧
      (¬(address = "" ∨ address.length < 10) →
        cacheLookupTruthy st (get_cache_key "address" address) force = none →
        (get_transactions st address force up).1 = failureResponse up) ∧
      (∀ v up2, ¬(address = "" ∨ address.length < 10) →
        get_from_cache st (get_cache_key "address" address) = some v → jTruthy v = true →
        (get_transactions st address false up2).1 = { status := 200, body := v }) := by
  refine ⟨?_, ?_, ?_⟩
  · by_cases hv : address = "" ∨ address.length < 10
    · simp only [get_transactions, if_pos hv]
    · rcases hc : cacheLookupTruthy st (get_cache_key "address" address) force with _ | c
      · cases up with
        | ok d => exact absurd rfl (hfail d)
        | timeout => simp only [get_transactions, if_neg hv, hc]
        | connErr => simp only [get_transactions, if_neg hv, hc]
        | httpErr code => simp only [get_transactions, if_neg hv, hc]
        | reqErr => simp only [get_transactions, if_neg hv, hc]
        | malformed => simp only [get_transactions, if_neg hv, hc]
      · simp only [get_transactions, if_neg hv, hc]
  · intro hv hc
    cases up with
    | ok d => exact absurd rfl (hfail d)
    | timeout => simp only [get_transactions, if_neg hv, hc]
    | connErr => simp only [get_transactions, if_neg hv, hc]
    | httpErr code => simp only [get_transactions, if_neg hv, hc]
    | reqErr => simp only [get_transactions, if_neg hv, hc]
    | malformed => simp only [get_transactions, if_neg hv, hc]
  · intro v up2 hv hget htruthy
    have hc : cacheLookupTruthy st (get_cache_key "address" address) false = some v := by
      simp [cacheLookupTruthy, hget, htruthy]
    simp only [get_transactions, if_neg hv, hc]

/-- C4 witness: with a truthy list cached for a valid address, a timed-out
refresh leaves the store unchanged and returns the 504 response, and the
next plain read serves the prior value. -/
theorem c4_failure_preserves_cache_witness :
    (get_transactions
        ⟨true, [(get_cache_key "address" "addr000000", JVal.jarr [JVal.jnull])]⟩
        "addr000000" true .timeout).2 =
      ⟨true, [(get_cache_key "address" "addr000000", JVal.jarr [JVal.jnull])]⟩ ∧
      (get_transactions
          ⟨true, [(get_cache_key "address" "addr000000", JVal.jarr [JVal.jnull])]⟩
          "addr000000" true .timeout).1 = failureResponse .timeout ∧
      (get_transactions
          ⟨true, [(get_cache_key "address" "addr000000", JVal.jarr [JVal.jnull])]⟩
          "addr000000" false .connErr).1 = { status := 200, body := JVal.jarr [JVal.jnull] } :=
  ⟨(c4_failure_preserves_cache _ "addr000000" true .timeout
      (fun d h => FetchResult.noConfusion h)).1,
    (c4_failure_preserves_cache _ "addr000000" true .timeout
      (fun d h => FetchResult.noConfusion h)).2.1 (by decide) rfl,
    (c4_failure_preserves_cache _ "addr000000" false .connErr
      (fun d h => FetchResult.noConfusion h)).2.2 (JVal.jarr [JVal.jnull]) .connErr
      (by decide) rfl rfl⟩

/-! ## Claim C1: pagination bypasses the cache entirely -/

/-- C1 counterexample: with the full transaction list for a block cached,
a paginated request (`start_index=5, limit=10`, no force refresh) does
not return the in-memory slice `[5:15]` of the cached list — it returns
whatever the upstream fetch produced (here an empty list, while the slice
would be ten entries), because pagination sets `cache_key = None` and the
read branch is skipped; the cache is also not written. -/
theorem c1_counterexample :
    get_block_transactions
        ⟨true, [(get_cache_key "block" "hash0000000000",
          JVal.jarr (List.replicate 16 JVal.jnull))]⟩
        "hash0000000000" false (some 5) (some 10) (.ok (.jarr [])) =
      ({ status := 200, body := JVal.jarr [] },
        ⟨true, [(get_cache_key "block" "hash0000000000",
          JVal.jarr (List.replicate 16 JVal.jnull))]⟩) ∧
      pySlice (List.replicate 16 JVal.jnull) 5 15 = List.replicate 10 JVal.jnull ∧
      JVal.jarr ([] : List JVal) ≠ JVal.jarr (List.replicate 10 JVal.jnull) := by
  refine ⟨rfl, rfl, ?_⟩
  simp [List.replicate]

/-- C1 (amended): a request carrying a pagination parameter never writes
the full-dataset cache key — and it never reads it either: the response
is independent of the cache contents (the pagination parameters are
forwarded upstream and the in-memory slicing branch is unreachable). -/
theorem c1_pagination_bypasses_cache (st st' : Store) (block_hash : String) (force : Bool)
    (si li : Option ℤ) (up : FetchResult) (hpag : si.isSome ∨ li.isSome) :
    (get_block_transactions st block_hash force si li up).2 = st ∧
      (get_block_transactions st block_hash force si li up).1 =
        (get_block_transactions st' block_hash force si li up).1 := by
  by_cases hv : block_hash = "" ∨ block_hash.length < 10
  · simp only [get_block_transactions, if_pos hv]
    exact ⟨by first | rfl | trivial, by first | rfl | trivial⟩
  · simp only [get_block_transactions, if_neg hv, if_pos hpag]
    cases up <;> exact ⟨rfl, rfl⟩

/-- C1 witness: concrete paginated request against two different stores
(one holding a full cached list, one empty): no write, same response. -/
theorem c1_pagination_bypasses_cache_witness :
    (get_block_transactions
        ⟨true, [(get_cache_key "block" "hash0000000000",
          JVal.jarr (List.replicate 16 JVal.jnull))]⟩
        "hash0000000000" false (some 5) (some 10) .timeout).2 =
      ⟨true, [(get_cache_key "block" "hash0000000000",
        JVal.jarr (List.replicate 16 JVal.jnull))]⟩ ∧
      (get_block_transactions
          ⟨true, [(get_cache_key "block" "hash0000000000",
            JVal.jarr (List.replicate 16 JVal.jnull))]⟩
          "hash0000000000" false (some 5) (some 10) .timeout).1 =
        (get_block_transactions ⟨true, []⟩ "hash0000000000" false (some 5) (some 10)
          .timeout).1 :=
  c1_pagination_bypasses_cache
    ⟨true, [(get_cache_key "block" "hash0000000000", JVal.jarr (List.replicate 16 JVal.jnull))]⟩
    ⟨true, []⟩ "hash0000000000" false (some 5) (some 10) .timeout (Or.inl rfl)

/-! ## Store lemmas -/

theorem objSet_lookup (k : String) (v : JVal) (l : List (String × JVal)) :
    ((objSet k v l).find? (fun p => p.1 = k)).map (fun p => p.2) = some v := by
  induction l with
  | nil => simp [objSet, List.find?]
  | cons kv tl ih =>
    rcases kv with ⟨k', v'⟩
    by_cases hk : k' = k
    · rw [objSet, if_pos hk]
      rw [List.find?_cons_of_pos _ (by simp [hk])]
      rfl
    · rw [objSet, if_neg hk]
      rw [List.find?_cons_of_neg _ (by simp [hk])]
      exact ih

theorem get_from_cache_set (st : Store) (k : String) (v : JVal) (ttl : Nat)
    (hav : st.redisAvailable = true) :
    get_from_cache (set_cache st k v ttl).2 k = some v := by
  simp only [set_cache, hav, if_true]
  simp only [get_from_cache, hav, if_true]
  exact objSet_lookup k v st.entries

theorem set_cache_avail (st : Store) (k : String) (v : JVal) (ttl : Nat) :
    ((set_cache st k v ttl).2).redisAvailable = st.redisAvailable := by
  simp only [set_cache]
  split_ifs <;> rfl

theorem mapE_ok_length (f : JVal → Except Unit JVal) :
    ∀ (xs ys : List JVal), mapE f xs = .ok ys → ys.length = xs.length := by
  intro xs
  induction xs with
  | nil =>
    intro ys h
    simp only [mapE] at h
    cases h
    rfl
  | cons x tl ih =>
    intro ys h
    simp only [mapE] at h
    rcases hfx : f x with e | y <;> rcases hm : mapE f tl with e2 | ys' <;>
      simp [hfx, hm] at h
    subst h
    simp only [List.length_cons, ih ys' hm]

/-! ## Claim C10: cache-hit reversal in `get_latest_blocks` -/

/-- C10: the call that populates the cache returns the enriched list in
upstream order and stores it in that order, while a subsequent cache-hit
call re-enriches the stored blocks and returns them reversed — so hit and
miss responses differ in element order for the same stored data. -/
theorem c10_hit_reverses_order (st : Store) (blocks blocks' blocks'' : List JVal)
    (up2 : FetchResult) (hav : st.redisAvailable = true) (hne : blocks ≠ [])
    (hm : mapE enrichMissBlock blocks = .ok blocks')
    (hh : mapE enrichHitBlock blocks' = .ok blocks'') :
    (get_latest_blocks st true (.ok (.jarr blocks))).1 =
        { status := 200, body := .jarr blocks' } ∧
      get_from_cache (get_latest_blocks st true (.ok (.jarr blocks))).2
          (get_cache_key "latest_blocks" "latest") = some (.jarr blocks') ∧
      (get_latest_blocks (get_latest_blocks st true (.ok (.jarr blocks))).2 false up2).1 =
        { status := 200, body := .jarr blocks''.reverse } := by
  have hfirst : get_latest_blocks st true (.ok (.jarr blocks)) =
      ({ status := 200, body := .jarr blocks' },
        (set_cache st (get_cache_key "latest_blocks" "latest") (.jarr blocks') CACHE_TTL).2) := by
    have h0 : cacheLookupTruthy st (get_cache_key "latest_blocks" "latest") true = none := rfl
    simp only [get_latest_blocks, h0, hm]
  have hget : get_from_cache (get_latest_blocks st true (.ok (.jarr blocks))).2
      (get_cache_key "latest_blocks" "latest") = some (.jarr blocks') := by
    rw [hfirst]
    exact get_from_cache_set st _ _ _ hav
  refine ⟨by rw [hfirst], hget, ?_⟩
  have hne' : blocks' ≠ [] := by
    intro h0
    apply hne
    have := mapE_ok_length enrichMissBlock blocks blocks' hm
    rw [h0] at this
    exact List.eq_nil_of_length_eq_zero this.symm
  have htruthy : jTruthy (.jarr blocks') = true := by
    cases blocks' with
    | nil => exact absurd rfl hne'
    | cons b tl => rfl
  have hlk : cacheLookupTruthy (get_latest_blocks st true (.ok (.jarr blocks))).2
      (get_cache_key "latest_blocks" "latest") false = some (.jarr blocks') := by
    simp [cacheLookupTruthy, hget, htruthy]
  rw [hfirst] at hlk ⊢
  simp only [get_latest_blocks, hlk, hh]

/-- C10 witness: two blocks (one with a difficulty, one without) served
through a miss and then a hit: the hit response is the reverse of the
stored (miss) order. -/
theorem c10_hit_reverses_order_witness :
    (get_latest_blocks ⟨true, []⟩ true
        (.ok (.jarr [.jobj [("difficulty", .jstr "x")], .jobj []]))).1 =
      { status := 200,
        body := .jarr [.jobj [("difficulty", .jstr "x"), ("megahash", .jnum 0)],
          .jobj [("megahash", .jnum 0)]] } ∧
      get_from_cache (get_latest_blocks ⟨true, []⟩ true
          (.ok (.jarr [.jobj [("difficulty", .jstr "x")], .jobj []]))).2
          (get_cache_key "latest_blocks" "latest") =
        some (.jarr [.jobj [("difficulty", .jstr "x"), ("megahash", .jnum 0)],
          .jobj [("megahash", .jnum 0)]]) ∧
      (get_latest_blocks (get_latest_blocks ⟨true, []⟩ true
          (.ok (.jarr [.jobj [("difficulty", .jstr "x")], .jobj []]))).2 false .timeout).1 =
        { status := 200,
          body := .jarr ([.jobj [("difficulty", .jstr "x"), ("megahash", .jnum 0)],
            .jobj [("megahash", .jnum 0)]] : List JVal).reverse } :=
  c10_hit_reverses_order ⟨true, []⟩
    [.jobj [("difficulty", .jstr "x")], .jobj []]
    [.jobj [("difficulty", .jstr "x"), ("megahash", .jnum 0)], .jobj [("megahash", .jnum 0)]]
    [.jobj [("difficulty", .jstr "x"), ("megahash", .jnum 0)], .jobj [("megahash", .jnum 0)]]
    .timeout rfl (List.cons_ne_nil _ _) rfl rfl

/-! ## Claim C8: the price worker survives fetch failures -/

theorem worker_run_failures (N : Nat) : ∀ s : PriceState,
    price_update_worker_run s (List.replicate N .failure) =
      { s with ticks := s.ticks + N, elapsed := s.elapsed + 60 * N } := by
  induction N with
  | zero =>
    intro s
    cases s
    rfl
  | succ N ih =>
    intro s
    have hstep : price_update_worker_run s (List.replicate (N + 1) .failure) =
        price_update_worker_run (price_update_worker_step s .failure) (List.replicate N .failure) :=
      rfl
    rw [hstep, ih]
    have hfetch : price_update_worker_step s .failure =
        { s with ticks := s.ticks + 1, elapsed := s.elapsed + 60 } := rfl
    rw [hfetch]
    cases s
    simp only [PriceState.mk.injEq]
    exact ⟨trivial, trivial, by omega, by omega⟩

/-- C8: after a successful fetch published a snapshot, any number `N` of
consecutive fetch failures leaves the store and the module-global price
untouched (a reader still receives the published price), and the loop
keeps iterating: the tick count grows by one per iteration and each
iteration performs its fixed 60-unit delay, after failure as after
success. -/
theorem c8_price_worker_failures (s : PriceState) (p : ℚ) (ts : String) (N : Nat)
    (up : PriceFetchOutcome) (hav : s.store.redisAvailable = true) :
    (price_update_worker_run s (.success p ts :: List.replicate N .failure)).store =
        (price_update_worker_step s (.success p ts)).store ∧
      (price_update_worker_run s (.success p ts :: List.replicate N .failure)).currentPrice =
        s.currentPrice ∧
      (price_update_worker_run s (.success p ts :: List.replicate N .failure)).ticks =
        s.ticks + (N + 1) ∧
      (price_update_worker_run s (.success p ts :: List.replicate N .failure)).elapsed =
        s.elapsed + 60 * (N + 1) ∧
      (get_bitcoin_price (price_update_worker_run s (.success p ts :: List.replicate N .failure))
          up).1 = some (.jnum p) := by
  have hrun : price_update_worker_run s (.success p ts :: List.replicate N .failure) =
      { price_update_worker_step s (.success p ts) with
        ticks := (price_update_worker_step s (.success p ts)).ticks + N
        elapsed := (price_update_worker_step s (.success p ts)).elapsed + 60 * N } := by
    have h0 : price_update_worker_run s (.success p ts :: List.replicate N .failure) =
        price_update_worker_run (price_update_worker_step s (.success p ts))
          (List.replicate N .failure) := rfl
    rw [h0, worker_run_failures]
  have hstore : (price_update_worker_step s (.success p ts)).store =
      { s.store with
        entries := objSet BITCOIN_PRICE_CACHE_KEY (priceEntry p ts) s.store.entries } := by
    show (fetch_bitcoin_price s.store (.success p ts)).2 = _
    simp only [fetch_bitcoin_price, hav, if_true]
  have hread : (get_bitcoin_price
      (price_update_worker_run s (.success p ts :: List.replicate N .failure)) up).1 =
      some (.jnum p) := by
    rw [hrun]
    have hgc : get_from_cache
        { price_update_worker_step s (.success p ts) with
          ticks := (price_update_worker_step s (.success p ts)).ticks + N
          elapsed := (price_update_worker_step s (.success p ts)).elapsed + 60 * N }.store
        BITCOIN_PRICE_CACHE_KEY = some (priceEntry p ts) := by
      show get_from_cache (price_update_worker_step s (.success p ts)).store _ = _
      rw [hstore]
      simp only [get_from_cache, hav, if_true]
      exact objSet_lookup _ _ _
    simp only [get_bitcoin_price, hgc, priceEntry]
    rfl
  refine ⟨by rw [hrun], by rw [hrun]; rfl, by rw [hrun]; show s.ticks + 1 + N = _; omega,
    by rw [hrun]; show s.elapsed + 60 + 60 * N = _; omega, hread⟩

/-- C8 witness: one successful fetch at price 42, then three failures:
the reader still sees 42 and four iterations with their delays have
completed. -/
theorem c8_price_worker_failures_witness :
    (price_update_worker_run ⟨⟨true, []⟩, none, 0, 0⟩
        (.success 42 "t" :: List.replicate 3 .failure)).ticks = 0 + (3 + 1) ∧
      (price_update_worker_run ⟨⟨true, []⟩, none, 0, 0⟩
          (.success 42 "t" :: List.replicate 3 .failure)).elapsed = 0 + 60 * (3 + 1) ∧
      (get_bitcoin_price (price_update_worker_run ⟨⟨true, []⟩, none, 0, 0⟩
          (.success 42 "t" :: List.replicate 3 .failure)) .failure).1 = some (.jnum 42) :=
  ⟨(c8_price_worker_failures ⟨⟨true, []⟩, none, 0, 0⟩ 42 "t" 3 .failure rfl).2.2.1,
    (c8_price_worker_failures ⟨⟨true, []⟩, none, 0, 0⟩ 42 "t" 3 .failure rfl).2.2.2.1,
    (c8_price_worker_failures ⟨⟨true, []⟩, none, 0, 0⟩ 42 "t" 3 .failure rfl).2.2.2.2⟩

end DrivechainExplorer
